import Mathlib

/-!
Shallow embedding of the spl-2022-token program (src/lib.rs and
src/rewards.rs) and proofs of the specification's claims about it.

Bytes are modelled as natural numbers below 256, byte sequences as lists,
u64/u128 values as natural numbers with explicit bounds and explicit
`% 2 ^ 64` where the source performs an `as u64` cast, and i64 values as
integers. Fallible Rust code is modelled with `Except`/`Option`; code that
can panic (slice `split_at` with an out-of-range index) is modelled with an
explicit `panicked` outcome.
-/

namespace SplToken

/-- A 32-byte public key, modelled as its byte list. -/
abbrev Pubkey := List Nat

/-- The subset of `solana_program::program_error::ProgramError` values this
program produces. -/
inductive ProgramError where
  | invalidInstructionData
  | incorrectProgramId
  | overflow
  | notEnoughAccountKeys
deriving DecidableEq, Repr

/-- Outcome of running Rust code that may return `Err`, return `Ok`, or
panic (abort). -/
inductive RustOutcome (α : Type) where
  | ok : α → RustOutcome α
  | err : ProgramError → RustOutcome α
  | panicked : RustOutcome α
deriving DecidableEq, Repr

/-- Rust slice `split_at`: `some (prefix, suffix)` when the index is in
range, `none` (a panic in Rust) otherwise. -/
def splitAtChecked (n : Nat) (l : List Nat) : Option (List Nat × List Nat) :=
  if n ≤ l.length then some (l.take n, l.drop n) else none

/-- `u64::from_le_bytes` on a little-endian byte list. -/
def u64_from_le_bytes (bs : List Nat) : Nat :=
  bs.foldr (fun b acc => b + 256 * acc) 0

/-- Little-endian encoding of `n` into `w` bytes (`to_le_bytes`). -/
def toLEBytes (w n : Nat) : List Nat :=
  match w with
  | 0 => []
  | w + 1 => n % 256 :: toLEBytes w (n / 256)

/-- The `TokenInstruction` enum of src/lib.rs. -/
inductive TokenInstruction where
  | initializeMint (decimals : Nat) (mint_authority : Option Pubkey)
  | mintTo (amount : Nat)
  | transfer (amount : Nat) (is_buy : Bool)
  | updateHolderBalance (holder : Pubkey) (balance : Nat)
deriving DecidableEq, Repr

/-- `TokenInstruction::unpack` of src/lib.rs, line by line. Tags 0 and 3
slice with `split_at`, which panics when the remaining buffer is too short;
tags 1 and 2 slice with `get(..8)` and map a missing slice to
`InvalidInstructionData`. Tag 2 reads the optional `is_buy` byte with a
`false` default. -/
def unpack (input : List Nat) : RustOutcome TokenInstruction :=
  match input with
  | [] => .err .invalidInstructionData
  | tag :: rest =>
    if tag = 0 then
      match splitAtChecked 1 rest with
      | none => .panicked
      | some (decimals, rest2) =>
        match splitAtChecked 32 rest2 with
        | none => .panicked
        | some (mint_authority_bytes, _) =>
          let mint_authority : Option Pubkey :=
            if mint_authority_bytes.all (· == 0) then none
            else some mint_authority_bytes
          .ok (.initializeMint (decimals.headD 0) mint_authority)
    else if tag = 1 then
      if 8 ≤ rest.length then .ok (.mintTo (u64_from_le_bytes (rest.take 8)))
      else .err .invalidInstructionData
    else if tag = 2 then
      if 8 ≤ rest.length then
        let is_buy := match rest[8]? with
          | some b => b != 0
          | none => false
        .ok (.transfer (u64_from_le_bytes (rest.take 8)) is_buy)
      else .err .invalidInstructionData
    else if tag = 3 then
      match splitAtChecked 32 rest with
      | none => .panicked
      | some (holder, rest2) =>
        if 8 ≤ rest2.length then
          .ok (.updateHolderBalance holder (u64_from_le_bytes (rest2.take 8)))
        else .err .invalidInstructionData
    else .err .invalidInstructionData

/-- Data vector built by `create_update_holder_balance_instruction` in
src/lib.rs: tag byte 3, the 32 holder bytes, the 8 little-endian balance
bytes. -/
def createUpdateHolderBalanceData (holder : Pubkey) (balance : Nat) : List Nat :=
  3 :: (holder ++ toLEBytes 8 balance)

/-- Modelled from the spec: the encoding direction of the Instruction Codec
(section 4.1 wire table). Only the `UpdateHolderBalance` encoder exists in
src (`create_update_holder_balance_instruction`); the other three variants
are encoded per the table: tag byte, then fixed-width little-endian fields,
an absent mint authority written as 32 zero bytes. -/
def encodeInstruction : TokenInstruction → List Nat
  | .initializeMint decimals mint_authority =>
      0 :: decimals ::
        (match mint_authority with
         | none => List.replicate 32 0
         | some key => key)
  | .mintTo amount => 1 :: toLEBytes 8 amount
  | .transfer amount is_buy =>
      2 :: (toLEBytes 8 amount ++ [if is_buy then 1 else 0])
  | .updateHolderBalance holder balance =>
      createUpdateHolderBalanceData holder balance

/-- An instruction value the wire format can represent: byte-sized fields,
u64-sized amounts, 32-byte identities, and a mint authority that is not the
all-zero key (the format reserves all-zero for "absent"). -/
def ValidInstruction : TokenInstruction → Prop
  | .initializeMint decimals mint_authority =>
      decimals < 256 ∧
      (match mint_authority with
       | none => True
       | some key =>
           key.length = 32 ∧ (∀ b ∈ key, b < 256) ∧ key.all (· == 0) = false)
  | .mintTo amount => amount < 2 ^ 64
  | .transfer amount _ => amount < 2 ^ 64
  | .updateHolderBalance holder balance =>
      holder.length = 32 ∧ (∀ b ∈ holder, b < 256) ∧ balance < 2 ^ 64

theorem toLEBytes_length (w n : Nat) : (toLEBytes w n).length = w := by
  induction w generalizing n with
  | zero => rfl
  | succ w ih => simp [toLEBytes, ih]

theorem u64_from_le_toLEBytes (w n : Nat) :
    u64_from_le_bytes (toLEBytes w n) = n % 256 ^ w := by
  induction w generalizing n with
  | zero => simp [toLEBytes, u64_from_le_bytes, Nat.mod_one]
  | succ w ih =>
    simp only [toLEBytes, u64_from_le_bytes, List.foldr] at *
    rw [ih, pow_succ', Nat.mod_mul]

theorem splitAtChecked_append (a b : List Nat) :
    splitAtChecked a.length (a ++ b) = some (a, b) := by
  simp [splitAtChecked, List.take_left, List.drop_left]

/-- `u128::checked_mul`: `none` when the product does not fit in 128 bits. -/
def checked_mul_u128 (a b : Nat) : Option Nat :=
  if a * b < 2 ^ 128 then some (a * b) else none

/-- `u128::checked_div`: `none` exactly when the divisor is zero. -/
def checked_div_u128 (a b : Nat) : Option Nat :=
  if b = 0 then none else some (a / b)

/-- `u64::checked_sub`: `none` on underflow. -/
def checked_sub_u64 (a b : Nat) : Option Nat :=
  if b ≤ a then some (a - b) else none

/-- The `TransferFeeConfig` record of src/lib.rs (fee rates in basis
points, collector and rewards-program identities). -/
structure TransferFeeConfig where
  buy_fee_basis_points : Nat
  sell_fee_basis_points : Nat
  fee_collector : Pubkey
  rewards_program : Pubkey
deriving DecidableEq, Repr

/-- The fee computation of `process_transfer` (src/lib.rs lines 239-243):
widen to u128, `checked_mul` by the rate, `checked_div` by 10000, then the
`as u64` truncating cast. `none` stands for the `ProgramError::Overflow`
early returns. -/
def compute_fee_amount (amount fee_basis_points : Nat) : Option Nat :=
  match checked_mul_u128 amount fee_basis_points with
  | none => none
  | some product =>
    match checked_div_u128 product 10000 with
    | none => none
    | some quotient => some (quotient % 2 ^ 64)

/-- One external call issued by `process_transfer` through `invoke`: a
token-program transfer, or the forwarded holder-balance instruction (its
raw data vector). -/
inductive ExternalCall where
  | tokenTransfer (source destination authority : Pubkey) (amount : Nat)
  | programInvoke (data : List Nat)
deriving DecidableEq, Repr

/-- `process_transfer` of src/lib.rs, modelled as the list of external
calls it issues on success. The fee rate is chosen by `is_buy`; the fee
and remaining legs are token transfers under the caller's authority; the
third call carries `create_update_holder_balance_instruction`'s data. In
the source the fee-leg `invoke` precedes the `checked_sub`; on that error
path the enclosing invocation discards the fee leg (spec section 5), so
the call trace is produced only on success. -/
def process_transfer (source destination authority fee_collector : Pubkey)
    (fee_config : TransferFeeConfig) (amount : Nat) (is_buy : Bool) :
    Except ProgramError (List ExternalCall) :=
  let fee_basis_points :=
    if is_buy then fee_config.buy_fee_basis_points
    else fee_config.sell_fee_basis_points
  match compute_fee_amount amount fee_basis_points with
  | none => .error .overflow
  | some fee_amount =>
    match checked_sub_u64 amount fee_amount with
    | none => .error .overflow
    | some remaining_amount =>
      .ok [ .tokenTransfer source fee_collector authority fee_amount,
            .tokenTransfer source destination authority remaining_amount,
            .programInvoke
              (createUpdateHolderBalanceData destination remaining_amount) ]

/-- An external account/storage region: its address, its declared owner,
and its byte contents. -/
structure AccountRegion where
  key : Pubkey
  owner : Pubkey
  data : List Nat
deriving DecidableEq, Repr

/-- Overlay `new` onto the front of `region`, as `copy_from_slice` /
`serialize_into` write a serialized record at offset 0 and leave the rest
of the region untouched. -/
def overlayBytes (region new : List Nat) : List Nat :=
  new ++ region.drop new.length

/-- Modelled from the spec: the byte image `InitializeMint` writes — the
serialized Mint followed at the next offset by the serialized Fee Schedule
(section 6 storage-layout contract). The serializers themselves live in
external libraries (spl-token-2022, bincode); here the Mint is an
authority-presence byte, the 32 authority bytes, the decimals byte and the
is-initialized byte, and the Fee Schedule is the two little-endian u16
rates (both fixed at 500) and the two 32-byte identities. -/
def mintRegionBytes (decimals : Nat) (mint_authority : Option Pubkey)
    (fee_collector rewards_program : Pubkey) : List Nat :=
  (match mint_authority with
   | none => 0 :: List.replicate 32 0
   | some key => 1 :: key) ++
  [decimals, 1] ++
  (toLEBytes 2 500 ++ toLEBytes 2 500 ++ fee_collector ++ rewards_program)

/-- `process_initialize_mint` of src/lib.rs: fails with
`IncorrectProgramId` before touching the region when the mint region's
owner is not this program; otherwise writes the Mint record and, right
after it, a Fee Schedule with 500 bps buy and sell rates and the supplied
collector and rewards identities. Returns the new region bytes. -/
def process_initialize_mint (program_id : Pubkey) (mint_account : AccountRegion)
    (fee_collector rewards_program : Pubkey) (decimals : Nat)
    (mint_authority : Option Pubkey) : Except ProgramError (List Nat) :=
  if mint_account.owner ≠ program_id then
    .error .incorrectProgramId
  else
    .ok (overlayBytes mint_account.data
          (mintRegionBytes decimals mint_authority fee_collector rewards_program))

/-- The bytes the mint region holds after `process_initialize_mint` runs,
with the error if any: on failure nothing was written, so the region keeps
its old bytes. -/
def initialize_mint_final (program_id : Pubkey) (mint_account : AccountRegion)
    (fee_collector rewards_program : Pubkey) (decimals : Nat)
    (mint_authority : Option Pubkey) : List Nat × Option ProgramError :=
  match process_initialize_mint program_id mint_account fee_collector
      rewards_program decimals mint_authority with
  | .error e => (mint_account.data, some e)
  | .ok bytes => (bytes, none)

/-- The `RewardsPool` record of src/rewards.rs. The `token_holders`
`HashMap` is modelled as its entry list in iteration order (the spec flags
that the source relies on this order positionally). -/
structure RewardsPool where
  last_distribution_time : Int
  total_wbtc_balance : Nat
  token_holders : List (Pubkey × Nat)
  reserve_wallet : Pubkey
  last_liquidity_add_time : Int
  liquidity_threshold : Nat
deriving DecidableEq, Repr

/-- The holder loop of `process_distribute_rewards` (src/rewards.rs lines
195-223): for each ledger entry, pull the next caller-supplied holder
account (`NotEnoughAccountKeys` when exhausted), compute
`floor(distribution_amount * balance / total_wbtc_balance)` with checked
u128 arithmetic and the `as u64` cast, and issue a transfer of that share
from the pool's reference-asset account under the pool's authority. -/
def computeHolderOps (wbtc_account rewards_pool_key : Pubkey)
    (distribution_amount total_wbtc_balance : Nat) :
    List (Pubkey × Nat) → List Pubkey → Except ProgramError (List ExternalCall)
  | [], _ => .ok []
  | (_, balance) :: holders, accounts =>
    match accounts with
    | [] => .error .notEnoughAccountKeys
    | holder_wbtc_account :: accounts =>
      match checked_mul_u128 distribution_amount balance with
      | none => .error .overflow
      | some product =>
        match checked_div_u128 product total_wbtc_balance with
        | none => .error .overflow
        | some share128 =>
          let holder_share := share128 % 2 ^ 64
          match computeHolderOps wbtc_account rewards_pool_key
              distribution_amount total_wbtc_balance holders accounts with
          | .error e => .error e
          | .ok ops =>
            .ok (.tokenTransfer wbtc_account holder_wbtc_account
                  rewards_pool_key holder_share :: ops)

/-- `process_distribute_rewards` of src/rewards.rs on an already-decoded
pool record: the 1800-second time gate (reusing `InvalidInstructionData`),
the `total_wbtc_balance / 2` reserve leg, the per-holder loop, then the
state update `last_distribution_time := current_time`,
`total_wbtc_balance := 0`. On any error the final `serialize_into` never
runs, so no updated record is returned. -/
def process_distribute_rewards (pool : RewardsPool) (current_time : Int)
    (wbtc_account reserve_wallet rewards_pool_key : Pubkey)
    (holder_accounts : List Pubkey) :
    Except ProgramError (RewardsPool × List ExternalCall) :=
  if current_time - pool.last_distribution_time < 1800 then
    .error .invalidInstructionData
  else
    let distribution_amount := pool.total_wbtc_balance / 2
    match computeHolderOps wbtc_account rewards_pool_key distribution_amount
        pool.total_wbtc_balance pool.token_holders holder_accounts with
    | .error e => .error e
    | .ok holder_ops =>
      .ok ({ pool with
              last_distribution_time := current_time,
              total_wbtc_balance := 0 },
           .tokenTransfer wbtc_account reserve_wallet rewards_pool_key
             distribution_amount :: holder_ops)

/-- Signed 64-bit value of 8 little-endian bytes (twos complement). -/
def i64_from_le_bytes (bs : List Nat) : Int :=
  let v := u64_from_le_bytes bs
  if v < 2 ^ 63 then (v : Int) else (v : Int) - 2 ^ 64

/-- Modelled from the spec: bincode deserialization of the stored Rewards
Pool record (section 6 storage layout) — bincode itself is an external
library. Fields in declaration order, fixed-width little-endian integers,
the holder map as a u64 entry count followed by 32-byte-key/u64-value
pairs. Reads the holder entries recursively. -/
def readHolderEntries (count : Nat) (bytes : List Nat) :
    Option (List (Pubkey × Nat) × List Nat) :=
  match count with
  | 0 => some ([], bytes)
  | count + 1 =>
    match splitAtChecked 32 bytes with
    | none => none
    | some (key, rest) =>
      match splitAtChecked 8 rest with
      | none => none
      | some (value, rest2) =>
        match readHolderEntries count rest2 with
        | none => none
        | some (entries, rest3) =>
          some ((key, u64_from_le_bytes value) :: entries, rest3)

/-- Modelled from the spec: deserialize a `RewardsPool` record from a
storage region's bytes (see `readHolderEntries` for the layout). `none`
stands for a bincode failure, which the source maps to
`InvalidInstructionData`. -/
def deserializeRewardsPool (bytes : List Nat) : Option RewardsPool :=
  match splitAtChecked 8 bytes with
  | none => none
  | some (t_dist, r1) =>
    match splitAtChecked 8 r1 with
    | none => none
    | some (total, r2) =>
      match splitAtChecked 8 r2 with
      | none => none
      | some (count, r3) =>
        match readHolderEntries (u64_from_le_bytes count) r3 with
        | none => none
        | some (holders, r4) =>
          match splitAtChecked 32 r4 with
          | none => none
          | some (reserve, r5) =>
            match splitAtChecked 8 r5 with
            | none => none
            | some (t_liq, r6) =>
              match splitAtChecked 8 r6 with
              | none => none
              | some (threshold, _) =>
                some { last_distribution_time := i64_from_le_bytes t_dist,
                       total_wbtc_balance := u64_from_le_bytes total,
                       token_holders := holders,
                       reserve_wallet := reserve,
                       last_liquidity_add_time := i64_from_le_bytes t_liq,
                       liquidity_threshold := u64_from_le_bytes threshold }

/-- The placeholder swap call of src/rewards.rs
(`create_swap_instruction(fee_collector, wbtc_account, rewards_pool)`
passed to `invoke`). -/
structure SwapCall where
  from_account : Pubkey
  to_account : Pubkey
  authority : Pubkey
deriving DecidableEq, Repr

/-- `process_swap_fees_for_wbtc` of src/rewards.rs over the pool region's
bytes: deserializes the pool (failure maps to `InvalidInstructionData`),
issues the swap call, and returns the region bytes as they stand — the
function never serializes the pool back, so the stored record is whatever
it was. -/
def process_swap_fees_for_wbtc (pool_data : List Nat)
    (fee_collector wbtc_account rewards_pool_key : Pubkey) :
    Except ProgramError (List Nat × SwapCall) :=
  match deserializeRewardsPool pool_data with
  | none => .error .invalidInstructionData
  | some _rewards_pool =>
    .ok (pool_data, ⟨fee_collector, wbtc_account, rewards_pool_key⟩)

theorem splitAtChecked_of_length (n : Nat) (a b : List Nat) (h : a.length = n) :
    splitAtChecked n (a ++ b) = some (a, b) := by
  subst h; exact splitAtChecked_append a b

theorem splitAtChecked_full (n : Nat) (l : List Nat) (h : l.length = n) :
    splitAtChecked n l = some (l, []) := by
  have := splitAtChecked_of_length n l [] h
  simpa using this

theorem compute_fee_amount_eq (amount rate : Nat)
    (hmul : amount * rate < 2 ^ 128) :
    compute_fee_amount amount rate = some (amount * rate / 10000 % 2 ^ 64) := by
  simp only [compute_fee_amount, checked_mul_u128, checked_div_u128, if_pos hmul]
  norm_num

/-- C1: for every u64 amount and every rate of at most 10000 basis points,
the Transfer fee computation returns exactly
`floor(amount * rate_bps / 10000)` (no overflow, the u64 cast is lossless),
this fee is at most the amount, the remaining-amount subtraction succeeds,
and fee plus remaining is exactly the amount. -/
theorem transfer_fee_exact (amount rate_bps : Nat)
    (hamt : amount < 2 ^ 64) (hrate : rate_bps ≤ 10000) :
    compute_fee_amount amount rate_bps = some (amount * rate_bps / 10000) ∧
    amount * rate_bps / 10000 ≤ amount ∧
    checked_sub_u64 amount (amount * rate_bps / 10000) =
      some (amount - amount * rate_bps / 10000) ∧
    amount * rate_bps / 10000 + (amount - amount * rate_bps / 10000) = amount := by
  have hfee_le : amount * rate_bps / 10000 ≤ amount := by
    calc amount * rate_bps / 10000
        ≤ amount * 10000 / 10000 :=
          Nat.div_le_div_right (Nat.mul_le_mul_left amount hrate)
      _ = amount := Nat.mul_div_cancel amount (by norm_num)
  have hmul : amount * rate_bps < 2 ^ 128 := by
    have h1 : amount * rate_bps ≤ amount * 10000 :=
      Nat.mul_le_mul_left amount hrate
    have h2 : amount * 10000 < 2 ^ 64 * 10000 :=
      (Nat.mul_lt_mul_right (by norm_num)).mpr hamt
    calc amount * rate_bps ≤ amount * 10000 := h1
      _ < 2 ^ 64 * 10000 := h2
      _ < 2 ^ 128 := by norm_num
  have hmod : amount * rate_bps / 10000 % 2 ^ 64 = amount * rate_bps / 10000 :=
    Nat.mod_eq_of_lt (lt_of_le_of_lt hfee_le hamt)
  have hfee := compute_fee_amount_eq amount rate_bps hmul
  rw [hmod] at hfee
  refine ⟨hfee, hfee_le, ?_, ?_⟩
  · simp [checked_sub_u64, hfee_le]
  · omega

theorem transfer_fee_exact_witness :
    compute_fee_amount 100000 500 = some (100000 * 500 / 10000) ∧
    100000 * 500 / 10000 = 5000 ∧
    checked_sub_u64 100000 (100000 * 500 / 10000) =
      some (100000 - 100000 * 500 / 10000) ∧
    100000 - 100000 * 500 / 10000 = 95000 ∧
    compute_fee_amount 7 500 = some 0 ∧
    (7 : Nat) - 7 * 500 / 10000 = 7 := by
  have h := transfer_fee_exact 100000 500 (by norm_num) (by norm_num)
  have h7 := transfer_fee_exact 7 500 (by norm_num) (by norm_num)
  exact ⟨h.1, by norm_num, h.2.2.1, by norm_num, by simpa using h7.1, by norm_num⟩

/-- C10: for every u64 amount and every u16 fee rate (also rates above
10000), the widened checked multiplication and checked division by 10000
always succeed, so the Overflow branches inside the fee computation are
unreachable; `process_transfer` raises Overflow exactly when the later
remaining-amount subtraction underflows, that is when the (u64-cast) fee
exceeds the amount. -/
theorem transfer_overflow_only_from_subtraction
    (source destination authority fee_collector : Pubkey)
    (fee_config : TransferFeeConfig) (amount : Nat) (is_buy : Bool)
    (hamt : amount < 2 ^ 64)
    (hbuy : fee_config.buy_fee_basis_points < 2 ^ 16)
    (hsell : fee_config.sell_fee_basis_points < 2 ^ 16) :
    (compute_fee_amount amount
      (if is_buy then fee_config.buy_fee_basis_points
       else fee_config.sell_fee_basis_points)).isSome = true ∧
    (process_transfer source destination authority fee_collector fee_config
        amount is_buy = .error .overflow ↔
      amount < amount * (if is_buy then fee_config.buy_fee_basis_points
        else fee_config.sell_fee_basis_points) / 10000 % 2 ^ 64) := by
  have main : ∀ rate : Nat, rate < 2 ^ 16 →
      (if is_buy then fee_config.buy_fee_basis_points
       else fee_config.sell_fee_basis_points) = rate →
      (compute_fee_amount amount rate).isSome = true ∧
      (process_transfer source destination authority fee_collector fee_config
          amount is_buy = .error .overflow ↔
        amount < amount * rate / 10000 % 2 ^ 64) := by
    intro rate hrate hr
    have hmul : amount * rate < 2 ^ 128 := by
      calc amount * rate < 2 ^ 64 * 2 ^ 16 := Nat.mul_lt_mul'' hamt hrate
        _ < 2 ^ 128 := by norm_num
    have hfee := compute_fee_amount_eq amount rate hmul
    refine ⟨by simp [hfee], ?_⟩
    by_cases hle : amount * rate / 10000 % 2 ^ 64 ≤ amount
    · simp only [process_transfer, hr, hfee, checked_sub_u64, if_pos hle]
      constructor
      · intro h; cases h
      · intro h; omega
    · simp only [process_transfer, hr, hfee, checked_sub_u64, if_neg hle]
      simp only [true_iff, iff_true]
      omega
  cases is_buy with
  | false =>
    simpa using main fee_config.sell_fee_basis_points hsell (by simp)
  | true =>
    simpa using main fee_config.buy_fee_basis_points hbuy (by simp)

theorem transfer_overflow_only_from_subtraction_witness :
    (compute_fee_amount 100000
      (if true then (500 : Nat) else 500)).isSome = true ∧
    (process_transfer [1] [2] [3] [4] ⟨500, 500, [4], [5]⟩ 100000 true =
        .error .overflow ↔
      100000 < 100000 * (if true then (500 : Nat) else 500) / 10000 % 2 ^ 64) :=
  transfer_overflow_only_from_subtraction [1] [2] [3] [4] ⟨500, 500, [4], [5]⟩
    100000 true (by norm_num) (by norm_num) (by norm_num)

theorem u64_from_le_toLEBytes_eq (n : Nat) (h : n < 2 ^ 64) :
    u64_from_le_bytes (toLEBytes 8 n) = n := by
  rw [u64_from_le_toLEBytes]
  have h8 : (256 : Nat) ^ 8 = 2 ^ 64 := by norm_num
  rw [h8]
  exact Nat.mod_eq_of_lt h

theorem unpack_updateHolderData (holder : Pubkey) (balance : Nat)
    (hlen : holder.length = 32) (hbal : balance < 2 ^ 64) :
    unpack (createUpdateHolderBalanceData holder balance) =
      .ok (.updateHolderBalance holder balance) := by
  have hsplit := splitAtChecked_of_length 32 holder (toLEBytes 8 balance) hlen
  have hlen8 := toLEBytes_length 8 balance
  have htake : (toLEBytes 8 balance).take 8 = toLEBytes 8 balance :=
    List.take_of_length_le (le_of_eq hlen8)
  simp [createUpdateHolderBalanceData, unpack, hsplit, hlen8, htake,
    u64_from_le_toLEBytes_eq balance hbal]

theorem unpack_encode_aux (x : TokenInstruction) (h : ValidInstruction x) :
    unpack (encodeInstruction x) = .ok x := by
  cases x with
  | initializeMint decimals mint_authority =>
    cases mint_authority with
    | none =>
      have hall : (List.replicate 32 (0 : Nat)).all (· == 0) = true := by decide
      have hsplit := splitAtChecked_full 32 (List.replicate 32 (0 : Nat))
        (by simp)
      simp [encodeInstruction, unpack, splitAtChecked, hall, hsplit]
    | some key =>
      obtain ⟨-, hklen, -, hkzero⟩ := h
      have h1 : splitAtChecked 1 (decimals :: key) = some ([decimals], key) := by
        simp [splitAtChecked]
      have h2 := splitAtChecked_full 32 key hklen
      simp [encodeInstruction, unpack, h1, h2, hkzero]
  | mintTo amount =>
    have hlen := toLEBytes_length 8 amount
    have htake : (toLEBytes 8 amount).take 8 = toLEBytes 8 amount :=
      List.take_of_length_le (le_of_eq hlen)
    simp [encodeInstruction, unpack, hlen, htake,
      u64_from_le_toLEBytes_eq amount h]
  | transfer amount is_buy =>
    have hlen := toLEBytes_length 8 amount
    have hdec := u64_from_le_toLEBytes_eq amount h
    cases is_buy with
    | false =>
      have htake : (toLEBytes 8 amount ++ [(0 : Nat)]).take 8 =
          toLEBytes 8 amount := by
        rw [← hlen]; exact List.take_left _ _
      have hget : (toLEBytes 8 amount ++ [(0 : Nat)])[8]? = some 0 := by
        rw [List.getElem?_append_right (le_of_eq hlen)]
        simp [hlen]
      simp [encodeInstruction, unpack, hlen, htake, hget, hdec]
    | true =>
      have htake : (toLEBytes 8 amount ++ [(1 : Nat)]).take 8 =
          toLEBytes 8 amount := by
        rw [← hlen]; exact List.take_left _ _
      have hget : (toLEBytes 8 amount ++ [(1 : Nat)])[8]? = some 1 := by
        rw [List.getElem?_append_right (le_of_eq hlen)]
        simp [hlen]
      simp [encodeInstruction, unpack, hlen, htake, hget, hdec]
  | updateHolderBalance holder balance =>
    obtain ⟨hlen, -, hbal⟩ := h
    exact unpack_updateHolderData holder balance hlen hbal

/-- C5: decoding inverts encoding for every wire-representable instruction
value, and in particular the data bytes built by
`create_update_holder_balance_instruction` (tag 3, 32-byte holder, 8-byte
little-endian balance) decode to `UpdateHolderBalance` with the same
holder and balance. -/
theorem decode_encode_roundtrip (x : TokenInstruction)
    (h : ValidInstruction x) :
    unpack (encodeInstruction x) = .ok x ∧
    (∀ holder balance, holder.length = 32 → balance < 2 ^ 64 →
      unpack (createUpdateHolderBalanceData holder balance) =
        .ok (.updateHolderBalance holder balance)) :=
  ⟨unpack_encode_aux x h, fun holder balance hl hb =>
    unpack_updateHolderData holder balance hl hb⟩

theorem decode_encode_roundtrip_witness :
    unpack (encodeInstruction
      (.updateHolderBalance (List.replicate 32 7) 123)) =
      .ok (.updateHolderBalance (List.replicate 32 7) 123) ∧
    (∀ holder balance, holder.length = 32 → balance < 2 ^ 64 →
      unpack (createUpdateHolderBalanceData holder balance) =
        .ok (.updateHolderBalance holder balance)) :=
  decode_encode_roundtrip (.updateHolderBalance (List.replicate 32 7) 123)
    (by constructor; · decide
        constructor; · decide
        · decide)

/-- C4 counter-evidence: the instruction decoder does not fail gracefully
on every truncated buffer. A buffer holding only the tag byte 0 (or only
the tag byte 3) reaches `split_at` with an out-of-range index and panics,
instead of returning `InvalidInstructionData` as the claim states. -/
theorem unpack_truncated_panics :
    unpack [0] = RustOutcome.panicked ∧
    unpack [3] = RustOutcome.panicked ∧
    unpack [0] ≠ RustOutcome.err ProgramError.invalidInstructionData := by
  decide

theorem compute_fee_amount_some (a r f : Nat)
    (h : compute_fee_amount a r = some f) : f = a * r / 10000 % 2 ^ 64 := by
  by_cases hm : a * r < 2 ^ 128
  · rw [compute_fee_amount_eq a r hm] at h
    exact (Option.some_inj.mp h).symm
  · have hnone : compute_fee_amount a r = none := by
      unfold compute_fee_amount checked_mul_u128
      rw [if_neg hm]
    rw [hnone] at h
    cases h

theorem checked_sub_u64_some (a b c : Nat) (h : checked_sub_u64 a b = some c) :
    c = a - b ∧ b ≤ a := by
  by_cases hle : b ≤ a
  · rw [checked_sub_u64, if_pos hle] at h
    exact ⟨(Option.some_inj.mp h).symm, hle⟩
  · rw [checked_sub_u64, if_neg hle] at h
    cases h

theorem process_transfer_eq (source destination authority fee_collector : Pubkey)
    (fee_config : TransferFeeConfig) (amount : Nat) (is_buy : Bool)
    (fee rem : Nat)
    (hc : compute_fee_amount amount
      (if is_buy then fee_config.buy_fee_basis_points
       else fee_config.sell_fee_basis_points) = some fee)
    (hs : checked_sub_u64 amount fee = some rem) :
    process_transfer source destination authority fee_collector fee_config
      amount is_buy =
      .ok [ .tokenTransfer source fee_collector authority fee,
            .tokenTransfer source destination authority rem,
            .programInvoke (createUpdateHolderBalanceData destination rem) ] := by
  simp only [process_transfer, hc, hs]

/-- C7: a successful Transfer issues exactly three external calls in
order — the fee leg from the source to the fee collector, the remaining
leg from the source to the destination (both under the transfer's
authority), then the `UpdateHolderBalance` notification whose holder is
the destination and whose balance argument is the just-computed remaining
amount. -/
theorem process_transfer_call_order
    (source destination authority fee_collector : Pubkey)
    (fee_config : TransferFeeConfig) (amount : Nat) (is_buy : Bool)
    (trace : List ExternalCall)
    (h : process_transfer source destination authority fee_collector
      fee_config amount is_buy = .ok trace) :
    trace =
      [ .tokenTransfer source fee_collector authority
          (amount * (if is_buy then fee_config.buy_fee_basis_points
            else fee_config.sell_fee_basis_points) / 10000 % 2 ^ 64),
        .tokenTransfer source destination authority
          (amount - amount * (if is_buy then fee_config.buy_fee_basis_points
            else fee_config.sell_fee_basis_points) / 10000 % 2 ^ 64),
        .programInvoke (createUpdateHolderBalanceData destination
          (amount - amount * (if is_buy then fee_config.buy_fee_basis_points
            else fee_config.sell_fee_basis_points) / 10000 % 2 ^ 64)) ] := by
  cases hc : compute_fee_amount amount
      (if is_buy then fee_config.buy_fee_basis_points
       else fee_config.sell_fee_basis_points) with
  | none =>
    have herr : process_transfer source destination authority fee_collector
        fee_config amount is_buy = .error .overflow := by
      simp only [process_transfer, hc]
    rw [herr] at h
    cases h
  | some fee =>
    cases hs : checked_sub_u64 amount fee with
    | none =>
      have herr : process_transfer source destination authority fee_collector
          fee_config amount is_buy = .error .overflow := by
        simp only [process_transfer, hc, hs]
      rw [herr] at h
      cases h
    | some remaining =>
      have heq := process_transfer_eq source destination authority
        fee_collector fee_config amount is_buy fee remaining hc hs
      rw [heq] at h
      have htr := Except.ok.inj h
      rw [← htr, (checked_sub_u64_some _ _ _ hs).1,
        compute_fee_amount_some _ _ _ hc]

theorem process_transfer_call_order_witness :
    ([ ExternalCall.tokenTransfer [1] [4] [3] 5000,
       ExternalCall.tokenTransfer [1] [2] [3] 95000,
       ExternalCall.programInvoke
         (createUpdateHolderBalanceData [2] 95000) ] : List ExternalCall) =
      [ .tokenTransfer [1] [4] [3]
          (100000 * (if true then (500 : Nat) else 500) / 10000 % 2 ^ 64),
        .tokenTransfer [1] [2] [3]
          (100000 -
            100000 * (if true then (500 : Nat) else 500) / 10000 % 2 ^ 64),
        .programInvoke (createUpdateHolderBalanceData [2]
          (100000 -
            100000 * (if true then (500 : Nat) else 500) / 10000 % 2 ^ 64)) ] :=
  process_transfer_call_order [1] [2] [3] [4] ⟨500, 500, [4], [5]⟩ 100000 true
    _ (by rfl)

/-- The pool record and the call list as they stand after
`process_distribute_rewards` returns, with the error if any: on failure the
final `serialize_into` never ran, so the stored record keeps its old value
and the invocation's calls are discarded (spec section 5). -/
def distribute_final (pool : RewardsPool) (current_time : Int)
    (wbtc_account reserve_wallet rewards_pool_key : Pubkey)
    (holder_accounts : List Pubkey) :
    RewardsPool × List ExternalCall × Option ProgramError :=
  match process_distribute_rewards pool current_time wbtc_account
      reserve_wallet rewards_pool_key holder_accounts with
  | .error e => (pool, [], some e)
  | .ok (p, ops) => (p, ops, none)

/-- C2: whenever fewer than 1800 seconds have elapsed since the last
distribution, `DistributeRewards` fails with `InvalidInstructionData`, the
stored pool record keeps every field unchanged, and no transfer is
issued. -/
theorem distribute_time_gate_no_mutation (pool : RewardsPool)
    (current_time : Int)
    (wbtc_account reserve_wallet rewards_pool_key : Pubkey)
    (holder_accounts : List Pubkey)
    (h : current_time - pool.last_distribution_time < 1800) :
    process_distribute_rewards pool current_time wbtc_account reserve_wallet
      rewards_pool_key holder_accounts = .error .invalidInstructionData ∧
    distribute_final pool current_time wbtc_account reserve_wallet
      rewards_pool_key holder_accounts =
      (pool, [], some .invalidInstructionData) := by
  have hp : process_distribute_rewards pool current_time wbtc_account
      reserve_wallet rewards_pool_key holder_accounts =
      .error .invalidInstructionData := by
    simp [process_distribute_rewards, h]
  exact ⟨hp, by simp [distribute_final, hp]⟩

theorem distribute_time_gate_no_mutation_witness :
    process_distribute_rewards ⟨0, 0, [], [], 0, 0⟩ 0 [1] [2] [3] [] =
      .error .invalidInstructionData ∧
    distribute_final ⟨0, 0, [], [], 0, 0⟩ 0 [1] [2] [3] [] =
      (⟨0, 0, [], [], 0, 0⟩, [], some .invalidInstructionData) :=
  distribute_time_gate_no_mutation ⟨0, 0, [], [], 0, 0⟩ 0 [1] [2] [3] []
    (by norm_num)

theorem process_distribute_rewards_ok (pool : RewardsPool)
    (current_time : Int)
    (wbtc_account reserve_wallet rewards_pool_key : Pubkey)
    (holder_accounts : List Pubkey) (ops : List ExternalCall)
    (hgate : ¬ current_time - pool.last_distribution_time < 1800)
    (hops : computeHolderOps wbtc_account rewards_pool_key
      (pool.total_wbtc_balance / 2) pool.total_wbtc_balance
      pool.token_holders holder_accounts = .ok ops) :
    process_distribute_rewards pool current_time wbtc_account reserve_wallet
      rewards_pool_key holder_accounts =
      .ok ({ pool with
              last_distribution_time := current_time,
              total_wbtc_balance := 0 },
        .tokenTransfer wbtc_account reserve_wallet rewards_pool_key
          (pool.total_wbtc_balance / 2) :: ops) := by
  unfold process_distribute_rewards
  rw [if_neg hgate]
  dsimp only
  rw [hops]

theorem process_distribute_rewards_err (pool : RewardsPool)
    (current_time : Int)
    (wbtc_account reserve_wallet rewards_pool_key : Pubkey)
    (holder_accounts : List Pubkey) (e : ProgramError)
    (hgate : ¬ current_time - pool.last_distribution_time < 1800)
    (hops : computeHolderOps wbtc_account rewards_pool_key
      (pool.total_wbtc_balance / 2) pool.total_wbtc_balance
      pool.token_holders holder_accounts = .error e) :
    process_distribute_rewards pool current_time wbtc_account reserve_wallet
      rewards_pool_key holder_accounts = .error e := by
  unfold process_distribute_rewards
  rw [if_neg hgate]
  dsimp only
  rw [hops]

theorem process_distribute_rewards_ok_fields (lt lq : Int) (total thr : Nat)
    (holders : List (Pubkey × Nat)) (rsv : Pubkey) (current_time : Int)
    (wbtc_account reserve_wallet rewards_pool_key : Pubkey)
    (holder_accounts : List Pubkey) (ops : List ExternalCall)
    (hgate : ¬ current_time - lt < 1800)
    (hops : computeHolderOps wbtc_account rewards_pool_key (total / 2) total
      holders holder_accounts = .ok ops) :
    process_distribute_rewards ⟨lt, total, holders, rsv, lq, thr⟩
      current_time wbtc_account reserve_wallet rewards_pool_key
      holder_accounts =
      .ok (⟨current_time, 0, holders, rsv, lq, thr⟩,
        .tokenTransfer wbtc_account reserve_wallet rewards_pool_key
          (total / 2) :: ops) :=
  process_distribute_rewards_ok ⟨lt, total, holders, rsv, lq, thr⟩
    current_time wbtc_account reserve_wallet rewards_pool_key
    holder_accounts ops hgate hops

/-- C3: with a pool balance of 1000, holder ledger entries of 300 and 700,
and the time gate satisfied, `DistributeRewards` moves 500 to the reserve
wallet and pro-rata shares of 150 and 350 to the two holder accounts (a
total of 1000), and the post-state has a zero balance and
`last_distribution_time = current_time`. -/
theorem distribute_concrete_two_holders
    (last_time last_liq : Int) (threshold : Nat) (current_time : Int)
    (h1 h2 reserve_rec a1 a2 wbtc reserve_acct pool_key : Pubkey)
    (hgate : ¬ current_time - last_time < 1800) :
    process_distribute_rewards
      ⟨last_time, 1000, [(h1, 300), (h2, 700)], reserve_rec, last_liq,
        threshold⟩
      current_time wbtc reserve_acct pool_key [a1, a2] =
      .ok (⟨current_time, 0, [(h1, 300), (h2, 700)], reserve_rec, last_liq,
             threshold⟩,
        [ .tokenTransfer wbtc reserve_acct pool_key 500,
          .tokenTransfer wbtc a1 pool_key 150,
          .tokenTransfer wbtc a2 pool_key 350 ]) ∧
      500 + 150 + 350 = 1000 := by
  refine ⟨?_, by norm_num⟩
  exact process_distribute_rewards_ok_fields last_time last_liq 1000
    threshold [(h1, 300), (h2, 700)] reserve_rec current_time
    wbtc reserve_acct pool_key [a1, a2]
    [.tokenTransfer wbtc a1 pool_key 150,
     .tokenTransfer wbtc a2 pool_key 350] hgate rfl

theorem distribute_concrete_two_holders_witness :
    process_distribute_rewards
      ⟨0, 1000, [([11], 300), ([12], 700)], [6], 0, 0⟩ 1800 [7] [8] [9]
      [[13], [14]] =
      .ok (⟨1800, 0, [([11], 300), ([12], 700)], [6], 0, 0⟩,
        [ .tokenTransfer [7] [8] [9] 500,
          .tokenTransfer [7] [13] [9] 150,
          .tokenTransfer [7] [14] [9] 350 ]) ∧
      500 + 150 + 350 = 1000 :=
  distribute_concrete_two_holders 0 0 0 1800 [11] [12] [6] [13] [14] [7] [8]
    [9] (by norm_num)

/-- C9: with a zero pool balance, a satisfied time gate, at least one
holder ledger entry and a supplied holder account, `DistributeRewards`
fails with Overflow (the share division by the zero total returns `none`)
and the pool record is not updated; with an empty holder ledger the same
state succeeds, issuing only a zero reserve transfer. -/
theorem distribute_zero_total (pool : RewardsPool) (current_time : Int)
    (wbtc_account reserve_wallet rewards_pool_key : Pubkey)
    (holder_accounts : List Pubkey)
    (hzero : pool.total_wbtc_balance = 0)
    (hgate : ¬ current_time - pool.last_distribution_time < 1800) :
    (pool.token_holders ≠ [] → holder_accounts ≠ [] →
      process_distribute_rewards pool current_time wbtc_account
        reserve_wallet rewards_pool_key holder_accounts =
        .error .overflow ∧
      distribute_final pool current_time wbtc_account reserve_wallet
        rewards_pool_key holder_accounts = (pool, [], some .overflow)) ∧
    (pool.token_holders = [] →
      process_distribute_rewards pool current_time wbtc_account
        reserve_wallet rewards_pool_key holder_accounts =
        .ok ({ pool with
                last_distribution_time := current_time,
                total_wbtc_balance := 0 },
          [.tokenTransfer wbtc_account reserve_wallet rewards_pool_key 0])) := by
  constructor
  · intro hh ha
    cases hth : pool.token_holders with
    | nil => exact absurd hth hh
    | cons head tl =>
      cases ha' : holder_accounts with
      | nil => exact absurd ha' ha
      | cons acct accts =>
        obtain ⟨hkey, hbal⟩ := head
        have hops : computeHolderOps wbtc_account rewards_pool_key
            (pool.total_wbtc_balance / 2) pool.total_wbtc_balance
            pool.token_holders holder_accounts = .error .overflow := by
          rw [hzero, hth, ha']
          simp [computeHolderOps, checked_mul_u128, checked_div_u128]
        have hp := process_distribute_rewards_err pool current_time
          wbtc_account reserve_wallet rewards_pool_key holder_accounts
          .overflow hgate hops
        rw [ha'] at hp
        exact ⟨hp, by simp [distribute_final, hp]⟩
  · intro hempty
    have hops : computeHolderOps wbtc_account rewards_pool_key
        (pool.total_wbtc_balance / 2) pool.total_wbtc_balance
        pool.token_holders holder_accounts = .ok [] := by
      rw [hempty]
      rfl
    have hp := process_distribute_rewards_ok pool current_time wbtc_account
      reserve_wallet rewards_pool_key holder_accounts [] hgate hops
    rw [hp, hzero]

theorem distribute_zero_total_witness :
    (([([9], 5)] : List (Pubkey × Nat)) ≠ [] →
      ([[7]] : List Pubkey) ≠ [] →
      process_distribute_rewards ⟨0, 0, [([9], 5)], [6], 0, 0⟩ 1800 [1] [2]
        [3] [[7]] = .error .overflow ∧
      distribute_final ⟨0, 0, [([9], 5)], [6], 0, 0⟩ 1800 [1] [2] [3] [[7]] =
        (⟨0, 0, [([9], 5)], [6], 0, 0⟩, [], some .overflow)) ∧
    (([([9], 5)] : List (Pubkey × Nat)) = [] →
      process_distribute_rewards ⟨0, 0, [([9], 5)], [6], 0, 0⟩ 1800 [1] [2]
        [3] [[7]] =
        .ok (⟨1800, 0, [([9], 5)], [6], 0, 0⟩,
          [.tokenTransfer [1] [2] [3] 0])) :=
  distribute_zero_total ⟨0, 0, [([9], 5)], [6], 0, 0⟩ 1800 [1] [2] [3] [[7]]
    rfl (by norm_num)

/-- C6: when the mint storage region's declared owner is not this
program's identity, `InitializeMint` fails with `IncorrectProgramId` and
the region's bytes are unchanged. -/
theorem initialize_mint_wrong_owner (program_id : Pubkey)
    (mint_account : AccountRegion) (fee_collector rewards_program : Pubkey)
    (decimals : Nat) (mint_authority : Option Pubkey)
    (h : mint_account.owner ≠ program_id) :
    process_initialize_mint program_id mint_account fee_collector
      rewards_program decimals mint_authority = .error .incorrectProgramId ∧
    initialize_mint_final program_id mint_account fee_collector
      rewards_program decimals mint_authority =
      (mint_account.data, some .incorrectProgramId) := by
  have hp : process_initialize_mint program_id mint_account fee_collector
      rewards_program decimals mint_authority =
      .error .incorrectProgramId := by
    simp [process_initialize_mint, h]
  exact ⟨hp, by simp [initialize_mint_final, hp]⟩

theorem initialize_mint_wrong_owner_witness :
    process_initialize_mint [2] ⟨[0], [1], [5, 5]⟩ [3] [4] 9 none =
      .error .incorrectProgramId ∧
    initialize_mint_final [2] ⟨[0], [1], [5, 5]⟩ [3] [4] 9 none =
      ([5, 5], some .incorrectProgramId) :=
  initialize_mint_wrong_owner [2] ⟨[0], [1], [5, 5]⟩ [3] [4] 9 none
    (by decide)

/-- C8: `SwapFeesForReferenceAsset` leaves the stored pool record's bytes
exactly as they were — the pool (including `total_wbtc_balance`) is read
at the start but never written back after the external swap call. -/
theorem swap_leaves_pool_unchanged (pool_data : List Nat)
    (fee_collector wbtc_account rewards_pool_key : Pubkey)
    (out : List Nat) (call : SwapCall)
    (h : process_swap_fees_for_wbtc pool_data fee_collector wbtc_account
      rewards_pool_key = .ok (out, call)) :
    out = pool_data ∧
    call = ⟨fee_collector, wbtc_account, rewards_pool_key⟩ := by
  simp only [process_swap_fees_for_wbtc] at h
  cases hd : deserializeRewardsPool pool_data with
  | none => rw [hd] at h; cases h
  | some p =>
    rw [hd] at h
    have := Except.ok.inj h
    exact ⟨congrArg Prod.fst this.symm, congrArg Prod.snd this.symm⟩

theorem swap_leaves_pool_unchanged_witness :
    List.replicate 72 (0 : Nat) = List.replicate 72 0 ∧
    (⟨[1], [2], [3]⟩ : SwapCall) = ⟨[1], [2], [3]⟩ :=
  swap_leaves_pool_unchanged (List.replicate 72 0) [1] [2] [3]
    (List.replicate 72 0) ⟨[1], [2], [3]⟩ (by rfl)

end SplToken
